import Mathlib

/-!
Verification of the course-automation core (label codec, subject resolvers,
AI batch dispatcher, exam resolution engine) against its natural-language
specification.  Strings are embedded as lists of Unicode code points
(`List Nat`); JavaScript numbers that can be fractional are embedded as `ℚ`.
-/

namespace OuCHN

/- ===================== Label codec (src/core/src/ai/AIModel.ts) ============ -/

/-- Code point is an ASCII uppercase letter (the JS regex class [A-Z]). -/
def isUpperCode (c : Nat) : Bool := 65 ≤ c && c ≤ 90

/-- JS String.prototype.toUpperCase restricted to a single code point:
ASCII lowercase letters are shifted down by 32, everything else unchanged
(no non-ASCII letters appear in the labels handled here). -/
def toUpperCode (c : Nat) : Nat := if 97 ≤ c && c ≤ 122 then c - 32 else c

/-- Code point counted as whitespace by JS `trim` / `\s` (main cases:
TAB, LF, VT, FF, CR, SPACE, NBSP, LINE/PARA SEPARATOR, BOM). -/
def isWsCode (c : Nat) : Bool :=
  c = 9 || c = 10 || c = 11 || c = 12 || c = 13 || c = 32 || c = 160 ||
  c = 8232 || c = 8233 || c = 65279

/-- JS String.prototype.trim: drop whitespace from both ends. -/
def jsTrim (s : List Nat) : List Nat :=
  ((s.dropWhile isWsCode).reverse.dropWhile isWsCode).reverse

/-- Digit-emitting loop of `indexToLabel` (AIModel.ts lines 21-27):
`while (n > 0) { n -= 1; s = chr(n % 26 + 65) + s; n = floor(n / 26) }`.
The argument is the running value of `n`; later (higher-order) digits are
prepended, which in this recursion means the recursive result comes first. -/
def indexToLabelAux : Nat → List Nat
  | 0 => []
  | n + 1 => indexToLabelAux (n / 26) ++ [n % 26 + 65]
decreasing_by
  exact Nat.lt_succ_of_le (Nat.div_le_self n 26)

/-- `indexToLabel` (AIModel.ts lines 15-29): bijective base-26 encoding,
0 → "A", 25 → "Z", 26 → "AA".  The source throws on negative or non-integer
input; the `Nat` domain covers exactly the non-throwing inputs. -/
def indexToLabel (index : Nat) : List Nat := indexToLabelAux (index + 1)

/-- `labelToIndex` (AIModel.ts lines 31-45): trim, uppercase, validate
against /^[A-Z]+$/, then fold `n = n * 26 + (ch - 64)` and return `n - 1`.
`none` models the thrown "invalid label" error. -/
def labelToIndex (label : List Nat) : Option Nat :=
  let t := (jsTrim label).map toUpperCode
  if t ≠ [] ∧ t.all isUpperCode then
    some ((t.foldl (fun n c => n * 26 + (c - 64)) 0) - 1)
  else none

/-- A code point is an ASCII letter (either case). -/
def isAlphaCode (c : Nat) : Bool := isUpperCode c || (97 ≤ c && c ≤ 122)

lemma indexToLabelAux_all_upper (n : Nat) :
    ∀ c ∈ indexToLabelAux n, 65 ≤ c ∧ c ≤ 90 := by
  induction n using Nat.strong_induction_on with
  | _ n ih =>
    match n with
    | 0 => simp [indexToLabelAux]
    | m + 1 =>
      intro c hc
      rw [indexToLabelAux] at hc
      rcases List.mem_append.mp hc with h | h
      · exact ih (m / 26) (Nat.lt_succ_of_le (Nat.div_le_self m 26)) c h
      · have : c = m % 26 + 65 := by simpa using h
        have hlt : m % 26 < 26 := Nat.mod_lt m (by norm_num)
        omega

lemma indexToLabelAux_ne_nil (n : Nat) (hn : 0 < n) : indexToLabelAux n ≠ [] := by
  match n, hn with
  | m + 1, _ =>
    rw [indexToLabelAux]
    simp

lemma indexToLabelAux_foldl (n : Nat) :
    ∀ acc : Nat,
      (indexToLabelAux n).foldl (fun k c => k * 26 + (c - 64)) acc =
        acc * 26 ^ (indexToLabelAux n).length + n := by
  induction n using Nat.strong_induction_on with
  | _ n ih =>
    match n with
    | 0 => intro acc; simp [indexToLabelAux]
    | m + 1 =>
      intro acc
      rw [indexToLabelAux, List.foldl_append,
        ih (m / 26) (Nat.lt_succ_of_le (Nat.div_le_self m 26)) acc]
      simp only [List.foldl_cons, List.foldl_nil, List.length_append,
        List.length_singleton]
      have h1 : m % 26 + 65 - 64 = m % 26 + 1 := by omega
      rw [h1, pow_succ]
      have h2 : m / 26 * 26 + m % 26 = m := by omega
      have h3 : (acc * 26 ^ (indexToLabelAux (m / 26)).length + m / 26) * 26 +
            (m % 26 + 1) =
          acc * (26 ^ (indexToLabelAux (m / 26)).length * 26) +
            (m / 26 * 26 + m % 26 + 1) := by ring
      rw [h3, h2]

lemma dropWhile_eq_self_of_forall {p : Nat → Bool} :
    ∀ l : List Nat, (∀ c ∈ l, p c = false) → l.dropWhile p = l
  | [], _ => rfl
  | x :: xs, h => by
    rw [List.dropWhile_cons, h x (by simp)]
    simp

lemma jsTrim_of_no_ws (s : List Nat) (h : ∀ c ∈ s, isWsCode c = false) :
    jsTrim s = s := by
  unfold jsTrim
  rw [dropWhile_eq_self_of_forall s h,
    dropWhile_eq_self_of_forall s.reverse (by simpa using h),
    List.reverse_reverse]

lemma labelToIndex_indexToLabel (i : Nat) :
    labelToIndex (indexToLabel i) = some i := by
  have hall := indexToLabelAux_all_upper (i + 1)
  have hne : indexToLabelAux (i + 1) ≠ [] :=
    indexToLabelAux_ne_nil (i + 1) (Nat.succ_pos i)
  have hnows : ∀ c ∈ indexToLabelAux (i + 1), isWsCode c = false := by
    intro c hc
    have := hall c hc
    simp only [isWsCode, Bool.or_eq_false_iff, decide_eq_false_iff_not]
    omega
  have hupper : ∀ c ∈ indexToLabelAux (i + 1), toUpperCode c = c := by
    intro c hc
    have := hall c hc
    simp only [toUpperCode]
    have : ¬(97 ≤ c ∧ c ≤ 122) := by omega
    simp only [Bool.and_eq_true, decide_eq_true_eq]
    rw [if_neg this]
  unfold labelToIndex indexToLabel
  have hmap : (indexToLabelAux (i + 1)).map toUpperCode = indexToLabelAux (i + 1) := by
    rw [List.map_congr_left hupper, List.map_id']
  rw [jsTrim_of_no_ws _ hnows, hmap]
  have hval : (indexToLabelAux (i + 1)).all isUpperCode = true := by
    rw [List.all_eq_true]
    intro c hc
    have := hall c hc
    simp only [isUpperCode, Bool.and_eq_true, decide_eq_true_eq]
    omega
  rw [if_pos ⟨hne, hval⟩, indexToLabelAux_foldl (i + 1) 0]
  simp

/-- Claim C9 (codec round-trip and case-insensitive decode).  For every
index `i ∈ [0, 1000]`, decoding the encoded label returns `i`; and for
every non-empty ASCII-letter string, decoding ignores letter case. -/
theorem codec_roundTrip_and_case_insensitive :
    (∀ i : Nat, i ≤ 1000 → labelToIndex (indexToLabel i) = some i) ∧
    (∀ s : List Nat, s ≠ [] → s.all isAlphaCode →
      labelToIndex s = labelToIndex (s.map toUpperCode)) := by
  constructor
  · intro i _
    exact labelToIndex_indexToLabel i
  · intro s _ _
    have hid : ∀ c : Nat, toUpperCode (toUpperCode c) = toUpperCode c := by
      intro c
      by_cases h : (97 ≤ c && c ≤ 122) = true
      · have e1 : toUpperCode c = c - 32 := by
          unfold toUpperCode
          rw [if_pos h]
        simp only [Bool.and_eq_true, decide_eq_true_eq] at h
        have hno : ¬((97 ≤ c - 32 && c - 32 ≤ 122) = true) := by
          simp only [Bool.and_eq_true, decide_eq_true_eq]
          omega
        have e2 : toUpperCode (c - 32) = c - 32 := by
          unfold toUpperCode
          rw [if_neg hno]
        rw [e1, e2]
      · have e1 : toUpperCode c = c := by
          unfold toUpperCode
          rw [if_neg h]
        rw [e1, e1]
    have hnows : ∀ c : Nat, isWsCode (toUpperCode c) = isWsCode c := by
      intro c
      by_cases h : (97 ≤ c && c ≤ 122) = true
      · have e1 : toUpperCode c = c - 32 := by
          unfold toUpperCode
          rw [if_pos h]
        simp only [Bool.and_eq_true, decide_eq_true_eq] at h
        have h1 : ∀ k : Nat, 65 ≤ k → k ≤ 122 → isWsCode k = false := by
          intro k hk1 hk2
          simp only [isWsCode, Bool.or_eq_false_iff, decide_eq_false_iff_not]
          omega
        rw [e1, h1 (c - 32) (by omega) (by omega), h1 c (by omega) (by omega)]
      · have e1 : toUpperCode c = c := by
          unfold toUpperCode
          rw [if_neg h]
        rw [e1]
    have htrim : jsTrim (s.map toUpperCode) = (jsTrim s).map toUpperCode := by
      unfold jsTrim
      have hfun : isWsCode ∘ toUpperCode = isWsCode := funext hnows
      rw [List.dropWhile_map, hfun, ← List.map_reverse, List.dropWhile_map,
        hfun, ← List.map_reverse]
    unfold labelToIndex
    rw [htrim, List.map_map,
      show toUpperCode ∘ toUpperCode = toUpperCode from funext hid]

/-- Witness for C9: the hypotheses hold and the theorem applies at index 27
(label "AB") and at the lowercase two-letter string "ab" (codes 97, 98). -/
theorem codec_roundTrip_witness :
    labelToIndex (indexToLabel 27) = some 27 ∧
    labelToIndex [97, 98] = labelToIndex ([97, 98].map toUpperCode) :=
  ⟨codec_roundTrip_and_case_insensitive.1 27 (by norm_num),
   codec_roundTrip_and_case_insensitive.2 [97, 98] (by decide) (by decide)⟩

/- ========= Exam resolution engine (src/unnamed/part_004, ExamProc) ========= -/

/-- Terminal outcome of `ExamProc.exec`: `pass` models `pullQuestions`
returning `null` (best score meets the threshold) so the loop stops
without a further submission; `exhausted` models the
"已达到最大重试次数, 跳过本次考试" break (reported as a skip, not a thrown
error). -/
inductive ExamOutcome
  | pass
  | exhausted
deriving Repr, DecidableEq

/-- The pass check in `ExamProc.pullQuestions` (part_004 lines 442-448):
`if (examScore && (examScore == totalPoints || examScore > totalPoints)) return null`.
`examScore` is the best historical score forwarded by `getHistoryScore`
(`none` models `undefined`); JS truthiness of a number demands it be
nonzero.  `true` means `pullQuestions` returns `null`. -/
def scoreMeetsThreshold (examScore : Option ℚ) (totalPoints : ℚ) : Bool :=
  match examScore with
  | none => false
  | some s => (!decide (s = 0)) && (decide (s = totalPoints) || decide (s > totalPoints))

/-- Pull oracle derived from a best-score history: `true` iff the k-th
`pullQuestions` call returns a non-null question set (threshold NOT met). -/
def pullsOfScores (scores : Nat → Option ℚ) (t : ℚ) : Nat → Bool :=
  fun k => !scoreMeetsThreshold (scores k) t

/-- Body of the retry loop in `ExamProc.exec` (part_004 lines 197-299).
`pulls k` tells whether the k-th `pullQuestions` call (k = number of
submissions already posted) returned questions.  `budget` is
`maxRetries - retry` for the loop counter `retry`; the source's break
condition `retry >= this.maxRetries` is exactly `budget = 0`.  `subs`
counts submissions posted so far.  Each iteration posts one submission,
re-pulls, and either passes (pull returned null), breaks exhausted
(budget spent), or loops with `retry + 1`. -/
def examGo (pulls : Nat → Bool) : Nat → Nat → Nat × ExamOutcome
  | budget, subs =>
    if pulls (subs + 1) then
      match budget with
      | 0 => (subs + 1, ExamOutcome.exhausted)
      | b + 1 => examGo pulls b (subs + 1)
    else (subs + 1, ExamOutcome.pass)

/-- `ExamProc.exec`: one initial `pullQuestions`, then the retry loop
(`for (let retry = 0; q && retry <= this.maxRetries; retry++)`), returning
the total number of submissions posted and the terminal outcome. -/
def examRun (pulls : Nat → Bool) (maxRetries : Nat) : Nat × ExamOutcome :=
  if pulls 0 then examGo pulls maxRetries 0 else (0, ExamOutcome.pass)

lemma examGo_all_true (pulls : Nat → Bool) (hall : ∀ k, pulls k = true) :
    ∀ b s, examGo pulls b s = (s + b + 1, ExamOutcome.exhausted) := by
  intro b
  induction b with
  | zero =>
    intro s
    rw [examGo, hall]
    simp
  | succ b ih =>
    intro s
    rw [examGo, hall]
    simp only [if_true]
    rw [ih (s + 1)]
    have h : s + 1 + b + 1 = s + (b + 1) + 1 := by omega
    rw [h]

/-- Claim C2 (loop termination on exhaustion): if the best historical
score never meets the threshold, the engine posts exactly
`maxRetries + 1` submissions and terminates as EXHAUSTED (the skip
branch, not an error). -/
theorem exam_exhaustion_count (scores : Nat → Option ℚ) (t : ℚ) (m : Nat)
    (h : ∀ k, scoreMeetsThreshold (scores k) t = false) :
    examRun (pullsOfScores scores t) m = (m + 1, ExamOutcome.exhausted) := by
  have hall : ∀ k, pullsOfScores scores t k = true := by
    intro k
    rw [pullsOfScores, h k]
    rfl
  rw [examRun, hall]
  simp only [if_true]
  rw [examGo_all_true _ hall m 0, Nat.zero_add]

/-- Witness for C2: a constant score of 50 against threshold 80 with
`maxRetries = 2` yields exactly 3 submissions and EXHAUSTED. -/
theorem exam_exhaustion_witness :
    examRun (pullsOfScores (fun _ => some 50) 80) 2 = (3, ExamOutcome.exhausted) :=
  exam_exhaustion_count (fun _ => some 50) 80 2
    (by
      intro k
      show scoreMeetsThreshold (some 50) 80 = false
      decide)

lemma examGo_pass_at (pulls : Nat → Bool) :
    ∀ c b s, (∀ i, 1 ≤ i → i ≤ c → pulls (s + i) = true) →
      pulls (s + c + 1) = false → c ≤ b →
      examGo pulls b s = (s + c + 1, ExamOutcome.pass) := by
  intro c
  induction c with
  | zero =>
    intro b s _ hstop _
    have h1 : pulls (s + 1) = false := by
      have := hstop
      rwa [Nat.add_zero] at this
    rw [examGo.eq_def]
    simp [h1]
  | succ c ih =>
    intro b s hrun hstop hcb
    have h1 : pulls (s + 1) = true := hrun 1 (by omega) (by omega)
    match b, hcb with
    | b + 1, _ =>
      rw [examGo, h1]
      simp only [if_true]
      have hrun' : ∀ i, 1 ≤ i → i ≤ c → pulls (s + 1 + i) = true := by
        intro i hi1 hi2
        have h := hrun (i + 1) (by omega) (by omega)
        have he : s + (i + 1) = s + 1 + i := by omega
        rwa [he] at h
      have hstop' : pulls (s + 1 + c + 1) = false := by
        have he : s + 1 + c + 1 = s + (c + 1) + 1 := by omega
        rwa [he]
      rw [ih b (s + 1) hrun' hstop' (by omega)]
      have he : s + 1 + c + 1 = s + (c + 1) + 1 := by omega
      rw [he]

/-- Counterexample for C3 as stated: with configured threshold 0 and a
best historical score of exactly 0 the score is "at least the threshold",
yet the engine (with `maxRetries = 0`) still posts one submission and
terminates EXHAUSTED rather than PASS, because the pass check also
requires the score to be truthy (nonzero). -/
theorem exam_pass_claim_counterexample :
    (0 : ℚ) ≥ 0 ∧
      examRun (pullsOfScores (fun _ => some 0) 0) 0 = (1, ExamOutcome.exhausted) := by
  constructor
  · norm_num
  · decide

/-- Claim C3 as amended: if the k-th fetched best score is nonzero and at
least the threshold, and no earlier fetch already met the check, the
engine stops after exactly the k submissions already posted — it issues
no further submission after observing that score — and terminates PASS. -/
theorem exam_pass_stops_submitting (scores : Nat → Option ℚ) (t : ℚ)
    (m k : Nat) (s : ℚ) (hk : scores k = some s) (hs0 : s ≠ 0) (hst : t ≤ s)
    (hbefore : ∀ j, j < k → scoreMeetsThreshold (scores j) t = false)
    (hle : k ≤ m + 1) :
    examRun (pullsOfScores scores t) m = (k, ExamOutcome.pass) := by
  have hmeets : scoreMeetsThreshold (scores k) t = true := by
    rw [hk]
    simp only [scoreMeetsThreshold, Bool.and_eq_true, Bool.not_eq_true',
      decide_eq_false_iff_not, Bool.or_eq_true, decide_eq_true_eq]
    refine ⟨hs0, ?_⟩
    rcases lt_or_eq_of_le hst with h | h
    · right; exact h
    · left; exact h.symm
  match k with
  | 0 =>
    have hp : pullsOfScores scores t 0 = false := by
      rw [pullsOfScores, hmeets]
      rfl
    rw [examRun, hp]
    simp
  | c + 1 =>
    have hp0 : pullsOfScores scores t 0 = true := by
      rw [pullsOfScores, hbefore 0 (by omega)]
      rfl
    rw [examRun, hp0]
    simp only [if_true]
    have hrun : ∀ i, 1 ≤ i → i ≤ c → pullsOfScores scores t (0 + i) = true := by
      intro i hi1 hi2
      rw [Nat.zero_add, pullsOfScores, hbefore i (by omega)]
      rfl
    have hstop : pullsOfScores scores t (0 + c + 1) = false := by
      rw [Nat.zero_add, pullsOfScores, hmeets]
      rfl
    rw [examGo_pass_at (pullsOfScores scores t) c m 0 hrun hstop (by omega),
      Nat.zero_add]

/-- Witness for C3 (amended): scores 10, 10, then 90 against threshold 80
with `maxRetries = 5`: two submissions happen, then the engine passes. -/
theorem exam_pass_witness :
    examRun (pullsOfScores (fun j => if j < 2 then some 10 else some 90) 80) 5 =
      (2, ExamOutcome.pass) :=
  exam_pass_stops_submitting (fun j => if j < 2 then some 10 else some 90) 80
    5 2 90 (by decide) (by decide) (by norm_num)
    (fun j hj => by interval_cases j <;> decide) (by omega)

lemma examGo_subs_pos (pulls : Nat → Bool) :
    ∀ b s, s + 1 ≤ (examGo pulls b s).1 := by
  intro b
  induction b with
  | zero =>
    intro s
    rw [examGo]
    by_cases h : pulls (s + 1) = true
    · rw [h]; simp
    · rw [Bool.not_eq_true] at h
      rw [h]; simp
  | succ b ih =>
    intro s
    rw [examGo]
    by_cases h : pulls (s + 1) = true
    · rw [h]
      simp only [if_true]
      have := ih (s + 1)
      omega
    · rw [Bool.not_eq_true] at h
      rw [h]; simp

/-- Claim C10 (zero-score edge case): a best historical score of exactly 0
never satisfies the pass check — whatever the threshold, including 0 —
because the check demands a truthy (nonzero) score; the engine then opens
a new attempt and posts at least one submission. -/
theorem zero_best_score_never_passes (t : ℚ) (m : Nat)
    (scores : Nat → Option ℚ) (h0 : scores 0 = some 0) :
    scoreMeetsThreshold (some 0) t = false ∧
      1 ≤ (examRun (pullsOfScores scores t) m).1 := by
  have hmeet : scoreMeetsThreshold (some 0) t = false := by
    simp [scoreMeetsThreshold]
  refine ⟨hmeet, ?_⟩
  have hp : pullsOfScores scores t 0 = true := by
    rw [pullsOfScores, h0, hmeet]
    rfl
  rw [examRun, hp]
  simp only [if_true]
  have := examGo_subs_pos (pullsOfScores scores t) m 0
  omega

/-- Witness for C10: threshold 0, all scores 0, `maxRetries = 0`. -/
theorem zero_best_score_witness :
    scoreMeetsThreshold (some 0) 0 = false ∧
      1 ≤ (examRun (pullsOfScores (fun _ => some 0) 0) 0).1 :=
  zero_best_score_never_passes 0 0 (fun _ => some 0) rfl

/- ============ Submission retry loop (part_004, ExamProc.submitAnswer) ======= -/

/-- Outcome of one `exam.postSubmissions` call: success (a truthy response,
per the REST contract `postSubmission -> ok | {429} | {400}`), HTTP 429,
HTTP 400, or any other thrown error. -/
inductive PostOutcome
  | ok
  | rate429
  | badRequest
  | otherError
deriving Repr, DecidableEq

/-- How `ExamProc.submitAnswer` ends: the post succeeded; the do-while
gave up after the 429 counter ran out; the 400 branch logged and re-threw;
any other error was re-thrown. -/
inductive SubmitResult
  | success
  | gaveUp
  | raised400
  | raisedOther
deriving Repr, DecidableEq

/-- The do-while loop of `ExamProc.submitAnswer` (part_004 lines 319-364):
`counter` starts at 5; a caught 429 sleeps 10 s, decrements the counter and
continues while `!r && counter > 0`; 400 and any other error are re-thrown;
a truthy result ends the loop.  Arguments: attempts and sleeps so far, then
the counter.  Returns (total post attempts, number of 10-second sleeps,
result). -/
def submitLoop (outcomes : Nat → PostOutcome) :
    Nat → Nat → Nat → Nat × Nat × SubmitResult
  | a, s, counter =>
    match outcomes a, counter with
    | PostOutcome.ok, _ => (a + 1, s, SubmitResult.success)
    | PostOutcome.badRequest, _ => (a + 1, s, SubmitResult.raised400)
    | PostOutcome.otherError, _ => (a + 1, s, SubmitResult.raisedOther)
    | PostOutcome.rate429, 0 => (a + 1, s + 1, SubmitResult.gaveUp)
    | PostOutcome.rate429, c + 1 =>
      if 0 < c then submitLoop outcomes (a + 1) (s + 1) c
      else (a + 1, s + 1, SubmitResult.gaveUp)

/-- `ExamProc.submitAnswer`: the loop entered with `counter = 5`,
`outcomes k` being the outcome of the k-th post attempt (0-based). -/
def submitAnswer (outcomes : Nat → PostOutcome) : Nat × Nat × SubmitResult :=
  submitLoop outcomes 0 0 5

/-- Counterexample for C4 as stated: under persistent HTTP 429 the loop
performs 5 total attempts — the first try plus only 4 retries — and then
gives up; "retries up to 5 times" would require a sixth attempt. -/
theorem submit_retry_counterexample :
    (submitAnswer (fun _ => PostOutcome.rate429)).1 = 5 ∧
      (submitAnswer (fun _ => PostOutcome.rate429)).1 ≠ 6 := by
  constructor
  · rfl
  · decide

lemma submitLoop_step_ok {outcomes : Nat → PostOutcome} {a s c : Nat}
    (h : outcomes a = PostOutcome.ok) :
    submitLoop outcomes a s c = (a + 1, s, SubmitResult.success) := by
  rw [submitLoop.eq_def]
  simp only [h]

lemma submitLoop_step_bad {outcomes : Nat → PostOutcome} {a s c : Nat}
    (h : outcomes a = PostOutcome.badRequest) :
    submitLoop outcomes a s c = (a + 1, s, SubmitResult.raised400) := by
  rw [submitLoop.eq_def]
  simp only [h]

lemma submitLoop_step_other {outcomes : Nat → PostOutcome} {a s c : Nat}
    (h : outcomes a = PostOutcome.otherError) :
    submitLoop outcomes a s c = (a + 1, s, SubmitResult.raisedOther) := by
  rw [submitLoop.eq_def]
  simp only [h]

lemma submitLoop_step_429 {outcomes : Nat → PostOutcome} {a s c : Nat}
    (h : outcomes a = PostOutcome.rate429) :
    submitLoop outcomes a s (c + 1) =
      (if 0 < c then submitLoop outcomes (a + 1) (s + 1) c
       else (a + 1, s + 1, SubmitResult.gaveUp)) := by
  rw [submitLoop.eq_def]
  simp only [h]

lemma submitLoop_le (outcomes : Nat → PostOutcome) :
    ∀ c a s, 1 ≤ c → (submitLoop outcomes a s c).1 ≤ a + c := by
  intro c
  induction c with
  | zero => omega
  | succ c ih =>
    intro a s _
    cases houtcome : outcomes a with
    | ok =>
      rw [submitLoop_step_ok houtcome]
      show a + 1 ≤ a + (c + 1)
      omega
    | badRequest =>
      rw [submitLoop_step_bad houtcome]
      show a + 1 ≤ a + (c + 1)
      omega
    | otherError =>
      rw [submitLoop_step_other houtcome]
      show a + 1 ≤ a + (c + 1)
      omega
    | rate429 =>
      rw [submitLoop_step_429 houtcome]
      by_cases hc : 0 < c
      · rw [if_pos hc]
        have := ih (a + 1) (s + 1) (by omega)
        omega
      · rw [if_neg hc]
        show a + 1 ≤ a + (c + 1)
        omega

lemma submitLoop_all429 (outcomes : Nat → PostOutcome) :
    ∀ c a s, 1 ≤ c → (∀ k, a ≤ k → outcomes k = PostOutcome.rate429) →
      submitLoop outcomes a s c = (a + c, s + c, SubmitResult.gaveUp) := by
  intro c
  induction c with
  | zero => omega
  | succ c ih =>
    intro a s _ hall
    rw [submitLoop_step_429 (hall a (by omega))]
    by_cases hc : 0 < c
    · rw [if_pos hc, ih (a + 1) (s + 1) (by omega) (fun k hk => hall k (by omega))]
      have e1 : a + 1 + c = a + (c + 1) := by omega
      have e2 : s + 1 + c = s + (c + 1) := by omega
      rw [e1, e2]
    · have hc0 : c = 0 := by omega
      subst hc0
      simp

lemma submitLoop_first_non429 (outcomes : Nat → PostOutcome) :
    ∀ c a s k, a ≤ k → k - a < c →
      (∀ j, a ≤ j → j < k → outcomes j = PostOutcome.rate429) →
      outcomes k ≠ PostOutcome.rate429 →
      submitLoop outcomes a s c =
        (k + 1, s + (k - a),
          match outcomes k with
          | PostOutcome.ok => SubmitResult.success
          | PostOutcome.badRequest => SubmitResult.raised400
          | PostOutcome.otherError => SubmitResult.raisedOther
          | PostOutcome.rate429 => SubmitResult.gaveUp) := by
  intro c
  induction c with
  | zero => omega
  | succ c ih =>
    intro a s k hak hkc hbefore hk
    by_cases hka : k = a
    · subst hka
      cases houtcome : outcomes k with
      | ok => rw [submitLoop_step_ok houtcome]; simp
      | badRequest => rw [submitLoop_step_bad houtcome]; simp
      | otherError => rw [submitLoop_step_other houtcome]; simp
      | rate429 => exact absurd houtcome hk
    · have h429 : outcomes a = PostOutcome.rate429 :=
        hbefore a (by omega) (by omega)
      have hc : 0 < c := by omega
      rw [submitLoop_step_429 h429, if_pos hc,
        ih (a + 1) (s + 1) k (by omega) (by omega)
          (fun j hj1 hj2 => hbefore j (by omega) hj2) hk]
      have e : s + 1 + (k - (a + 1)) = s + (k - a) := by omega
      rw [e]

/-- Claim C4 as amended: on HTTP 429 the submit loop retries with a fixed
10-second sleep before each retry, but at most 4 retries happen (at most 5
total attempts, matching the taxonomy's "up to 5 attempts", not the
claimed 5 retries); a success or any non-429 failure at attempt k ends the
loop at once with k total sleeps. -/
theorem submit_retry_behaviour (outcomes : Nat → PostOutcome) :
    (submitAnswer outcomes).1 ≤ 5 ∧
    ((∀ k, outcomes k = PostOutcome.rate429) →
      submitAnswer outcomes = (5, 5, SubmitResult.gaveUp)) ∧
    (∀ k, k < 5 → (∀ j, j < k → outcomes j = PostOutcome.rate429) →
      outcomes k ≠ PostOutcome.rate429 →
      submitAnswer outcomes =
        (k + 1, k,
          match outcomes k with
          | PostOutcome.ok => SubmitResult.success
          | PostOutcome.badRequest => SubmitResult.raised400
          | PostOutcome.otherError => SubmitResult.raisedOther
          | PostOutcome.rate429 => SubmitResult.gaveUp)) := by
  refine ⟨?_, ?_, ?_⟩
  · have := submitLoop_le outcomes 5 0 0 (by omega)
    simpa [submitAnswer] using this
  · intro hall
    have := submitLoop_all429 outcomes 5 0 0 (by omega)
      (fun k _ => hall k)
    simpa [submitAnswer] using this
  · intro k hk hbefore hknot
    have := submitLoop_first_non429 outcomes 5 0 0 k (by omega) (by omega)
      (fun j _ hj => hbefore j hj) hknot
    simpa [submitAnswer] using this

/-- Witness for C4 (amended): two 429s then a success gives 3 attempts,
2 sleeps, loop ends in success; the attempt bound holds. -/
theorem submit_retry_witness :
    (submitAnswer (fun k => if k < 2 then PostOutcome.rate429
        else PostOutcome.ok)).1 ≤ 5 ∧
      submitAnswer (fun k => if k < 2 then PostOutcome.rate429
        else PostOutcome.ok) = (3, 2, SubmitResult.success) := by
  refine ⟨(submit_retry_behaviour _).1, ?_⟩
  have h := (submit_retry_behaviour
    (fun k => if k < 2 then PostOutcome.rate429 else PostOutcome.ok)).2.2
    2 (by omega) (fun j hj => by interval_cases j <;> decide) (by decide)
  simpa using h

/- ========== Subject resolvers (src/core/src/course/exam) =================== -/

/-- An answer option of a subject (BaseSubjectResolver.ts `Option`):
content text and option id. -/
structure ExamOption where
  content : String
  id : Nat
deriving Repr, DecidableEq

/-- A graded question (BaseSubjectResolver.ts `Subject`), restricted to the
fields the resolvers read. -/
structure Subject where
  description : String
  id : Nat
  options : List ExamOption
  parentDescription : Option String := none
deriving Repr, DecidableEq

/-- A prefetched batch result (BaseSubjectResolver.ts `BatchResultItem`):
optional answer indices (JS numbers, possibly out of range) and optional
answer text (as code points). -/
structure BatchResultItem where
  indices : Option (List Int) := none
  text : Option (List Nat) := none
deriving Repr, DecidableEq

/-- Helper for `jsSetDedup`: drop elements already seen. -/
def jsSetDedupAux {α : Type} [DecidableEq α] (seen : List α) :
    List α → List α
  | [] => []
  | x :: xs =>
    if seen.contains x then jsSetDedupAux seen xs
    else x :: jsSetDedupAux (x :: seen) xs

/-- JS `new Set([...])` materialised back to an array: keeps the first
occurrence of each element, preserving insertion order. -/
def jsSetDedup {α : Type} [DecidableEq α] (l : List α) : List α :=
  jsSetDedupAux [] l

/-- Mutable state of a `SingleSelection` resolver (SingleSelection.ts):
the immutable subject, the learned `wrongOptions` exclusion list, and the
inherited `_prefetchedResult` slot. -/
structure SSState where
  subject : Subject
  wrongOptions : List ExamOption := []
  prefetched : Option BatchResultItem := none
deriving Repr, DecidableEq

/-- The option-id lookup inside `SingleSelection.addAnswerFilter`:
each id is resolved via `options.find(...)`; a missing id throws
("Oops! don't have"), modelled as `none`. -/
def lookupOptions (options : List ExamOption) : List Nat → Option (List ExamOption)
  | [] => some []
  | optId :: rest =>
    match options.find? (fun o => o.id == optId) with
    | some o => (lookupOptions options rest).map (fun os => o :: os)
    | none => none

/-- `SingleSelection.addAnswerFilter` (SingleSelection.ts lines 9-21).  The
score parameter is declared `_` and ignored; every given option id is
looked up in the subject's options and unioned into `wrongOptions` via
`new Set`. -/
def ssAddAnswerFilter (st : SSState) (_score : ℚ) (optionIds : List Nat) :
    Option SSState :=
  (lookupOptions st.subject.options optionIds).map
    (fun found => { st with wrongOptions := jsSetDedup (st.wrongOptions ++ found) })

/-- `SingleSelection.isPass` (SingleSelection.ts lines 93-95):
`options.length - wrongOptions.length == 1` over JS numbers. -/
def ssIsPass (st : SSState) : Bool :=
  (st.subject.options.length : Int) - (st.wrongOptions.length : Int) == 1

/-- Which way `SingleSelection.getAnswer` (SingleSelection.ts lines 44-91)
resolves: the all-options-wrong throw, elimination (the single remaining
option, no AI call), the inner "can't find option" throw, a valid
prefetched batch result, or the fallthrough that consults the AI model
with the remaining (non-excluded) options. -/
inductive SSAnswerPath where
  | allWrongError
  | eliminated (ids : List Nat)
  | findError
  | prefetchHit (ids : List Nat)
  | consultAI (remaining : List ExamOption)
deriving Repr, DecidableEq

/-- `SingleSelection.getAnswer` up to the AI call, returning the branch
taken and the updated state (the prefetched result is consumed exactly
when its indices are read). -/
def ssGetAnswerPath (st : SSState) : SSAnswerPath × SSState :=
  let options := st.subject.options
  if st.wrongOptions.length == options.length then (SSAnswerPath.allWrongError, st)
  else if ssIsPass st then
    match options.find? (fun o => !(st.wrongOptions.map ExamOption.id).contains o.id) with
    | some o => (SSAnswerPath.eliminated [o.id], st)
    | none => (SSAnswerPath.findError, st)
  else
    let opts := options.filter
      (fun o => !(st.wrongOptions.map ExamOption.id).contains o.id)
    match st.prefetched with
    | some r =>
      match r.indices with
      | some (idx :: _) =>
        let st1 := { st with prefetched := none }
        if h : 0 ≤ idx ∧ idx.toNat < opts.length then
          (SSAnswerPath.prefetchHit [(opts.get ⟨idx.toNat, h.2⟩).id], st1)
        else (SSAnswerPath.consultAI opts, st1)
      | _ => (SSAnswerPath.consultAI opts, st)
    | none => (SSAnswerPath.consultAI opts, st)

/-- Score-based routing in `ExamProc.collectSubmissons` (part_004 lines
510-525): on a nonzero per-subject score the *unchosen* option ids are
passed to `addAnswerFilter`, on a zero score the chosen ids themselves. -/
def collectFilterOpts (optionIds answered : List Nat) (score : ℚ) : List Nat :=
  if score ≠ 0 then optionIds.filter (fun id => !answered.contains id)
  else answered

/-- Demo subject for C1: single-selection with options A, B, C, D. -/
def demoSubject : Subject :=
  { description := "q", id := 1,
    options := [⟨"A", 1⟩, ⟨"B", 2⟩, ⟨"C", 3⟩, ⟨"D", 4⟩] }

/-- Fresh resolver state over `demoSubject`. -/
def demoSS0 : SSState := { subject := demoSubject }

/-- Counterexample for C1 as stated: `addAnswerFilter(0, B)` does NOT
leave the exclusion set unchanged — the resolver ignores the score and
adds the chosen option B to `wrongOptions`. -/
theorem singleSelection_zero_score_counterexample :
    (ssAddAnswerFilter demoSS0 0 [2]).map SSState.wrongOptions =
        some [ExamOption.mk "B" 2] ∧
      demoSS0.wrongOptions = [] := by
  constructor
  · rfl
  · rfl

/-- Claim C1 as amended: `SingleSelection.addAnswerFilter` ignores the
score argument entirely; `addAnswerFilter(0, B)` therefore adds the chosen
option B to the exclusion set (this is what `collectSubmissons` feeds it
on a zero score: the chosen ids themselves).  With three options left the
resolver is still undecided, so the next `getAnswer()` does consult the
AI collaborator rather than being decided by elimination. -/
theorem singleSelection_zero_score_behaviour
    (sub : Subject) (o1 o2 o3 o4 : ExamOption) (score : ℚ)
    (hopts : sub.options = [o1, o2, o3, o4])
    (h1 : o1.id ≠ o2.id) (h3 : o3.id ≠ o2.id) (h4 : o4.id ≠ o2.id) :
    ssAddAnswerFilter ⟨sub, [], none⟩ score [o2.id] =
        ssAddAnswerFilter ⟨sub, [], none⟩ 0 [o2.id] ∧
      ssAddAnswerFilter ⟨sub, [], none⟩ 0 [o2.id] = some ⟨sub, [o2], none⟩ ∧
      ssIsPass ⟨sub, [o2], none⟩ = false ∧
      (ssGetAnswerPath ⟨sub, [o2], none⟩).1 =
        SSAnswerPath.consultAI [o1, o3, o4] ∧
      collectFilterOpts (sub.options.map ExamOption.id) [o2.id] 0 = [o2.id] := by
  have b1 : (o1.id == o2.id) = false := beq_eq_false_iff_ne.mpr h1
  have b2 : (o2.id == o2.id) = true := beq_self_eq_true _
  have b3 : (o3.id == o2.id) = false := beq_eq_false_iff_ne.mpr h3
  have b4 : (o4.id == o2.id) = false := beq_eq_false_iff_ne.mpr h4
  refine ⟨rfl, ?_, ?_, ?_, ?_⟩
  · simp [ssAddAnswerFilter, lookupOptions, hopts, List.find?, b1, b2,
      jsSetDedup, jsSetDedupAux]
  · simp [ssIsPass, hopts]
  · simp [ssGetAnswerPath, ssIsPass, hopts, List.filter, b1, b2, b3, b4,
      h1, h3, h4]
  · simp [collectFilterOpts]

/-- Witness for C1 (amended): on the concrete A/B/C/D subject,
`addAnswerFilter(0, B)` excludes exactly B and the next `getAnswer`
consults the AI with A, C, D remaining. -/
theorem singleSelection_zero_score_witness :
    ssAddAnswerFilter ⟨demoSubject, [], none⟩ 0 [2] =
        some ⟨demoSubject, [⟨"B", 2⟩], none⟩ ∧
      (ssGetAnswerPath ⟨demoSubject, [⟨"B", 2⟩], none⟩).1 =
        SSAnswerPath.consultAI [⟨"A", 1⟩, ⟨"C", 3⟩, ⟨"D", 4⟩] := by
  have h := singleSelection_zero_score_behaviour demoSubject
    ⟨"A", 1⟩ ⟨"B", 2⟩ ⟨"C", 3⟩ ⟨"D", 4⟩ 7 rfl
    (by decide) (by decide) (by decide)
  exact ⟨h.2.1, h.2.2.2.1⟩

/- ===== MultipleSelection resolver (src/core/src/course/exam/Analysis.ts) === -/

/-- Insert into a sorted list (ascending). -/
def insertSorted (x : Nat) : List Nat → List Nat
  | [] => [x]
  | y :: ys => if x ≤ y then x :: y :: ys else y :: insertSorted x ys

/-- `MultipleSelection.normalize`: `ids.slice().sort((a, b) => a - b)`
ascending; the `join(',')` step is dropped because comma-joining decimal
numerals is injective, so list equality models string equality. -/
def msNormalize : List Nat → List Nat
  | [] => []
  | x :: xs => insertSorted x (msNormalize xs)

/-- JS `Set.prototype.add` on a set materialised as an insertion-ordered
list. -/
def jsSetAdd {α : Type} [DecidableEq α] (s : List α) (x : α) : List α :=
  if s.contains x then s else s ++ [x]

/-- Mutable state of a `MultipleSelection` resolver: pass flag, solved
answer learned from a nonzero score, tried-answer-set of normalized id
lists, and the inherited `_prefetchedResult` slot. -/
structure MSState where
  subject : Subject
  pass : Bool := false
  solvedAnswer : Option (List Nat) := none
  tried : List (List Nat) := []
  prefetched : Option BatchResultItem := none
deriving Repr, DecidableEq

/-- `MultipleSelection.addAnswerFilter` (Analysis.ts lines 47-63): a
nonzero score marks the complement of the submitted wrong set as solved
and passes; a zero score only records the submitted combination as tried. -/
def msAddAnswerFilter (st : MSState) (score : ℚ) (optionIds : List Nat) :
    MSState :=
  if score ≠ 0 then
    let solved := (st.subject.options.filter
      (fun o => !optionIds.contains o.id)).map ExamOption.id
    { st with
        solvedAnswer := some solved
        pass := true
        tried := jsSetAdd st.tried (msNormalize solved) }
  else if optionIds ≠ [] then
    { st with tried := jsSetAdd st.tried (msNormalize optionIds) }
  else st

/-- The candidate id list the realtime path of
`MultipleSelection.getAnswer` computes (Analysis.ts lines 87-103): on AI
success, `indices.map(i => options[i]).filter(Boolean).map(o => o.id)`
(out-of-range indices drop out); on AI failure, the first
`min(2, options.length)` options. -/
def msCandidate (options : List ExamOption) :
    Except Unit (List Int) → List Nat
  | Except.ok indices =>
    (indices.filterMap
      (fun i => if 0 ≤ i then options.get? i.toNat else none)).map ExamOption.id
  | Except.error _ => (options.take (min 2 options.length)).map ExamOption.id

/-- The "简单扰动" of `MultipleSelection.getAnswer` (Analysis.ts lines
106-115): build a Set from the ids, toggle membership of the LAST option
of the subject, and materialise the set back to an array.  (With an empty
option list the source would add `undefined` to the set; that case is
unreachable for real subjects and modelled as no toggle.) -/
def msPerturb (options : List ExamOption) (ids : List Nat) : List Nat :=
  let base := jsSetDedup ids
  match (options.map ExamOption.id).getLast? with
  | some last => if base.contains last then base.erase last else base ++ [last]
  | none => base

/-- Realtime tail of `MultipleSelection.getAnswer`: AI call (or fallback),
perturb if the combination was already tried, then record and return. -/
def msRealtime (st : MSState) (ai : Except Unit (List Int)) :
    List Nat × MSState :=
  let ids0 := msCandidate st.subject.options ai
  let ids1 := if st.tried.contains (msNormalize ids0) then
      msPerturb st.subject.options ids0
    else ids0
  (ids1, { st with tried := jsSetAdd st.tried (msNormalize ids1) })

/-- `MultipleSelection.getAnswer` (Analysis.ts lines 65-119): solved
short-circuit, prefetched-result branch (consumed when its indices are
read; skipped when already tried), then the realtime tail. -/
def msGetAnswer (st : MSState) (ai : Except Unit (List Int)) :
    List Nat × MSState :=
  match st.pass, st.solvedAnswer with
  | true, some a => (a, st)
  | _, _ =>
    match st.prefetched with
    | some r =>
      match r.indices with
      | some (i0 :: irest) =>
        let ids := ((i0 :: irest).filterMap
          (fun i => if 0 ≤ i && i.toNat < st.subject.options.length then
              st.subject.options.get? i.toNat
            else none)).map ExamOption.id
        let st1 := { st with prefetched := none }
        if !st1.tried.contains (msNormalize ids) then
          (ids, { st1 with tried := jsSetAdd st1.tried (msNormalize ids) })
        else msRealtime st1 ai
      | _ => msRealtime st ai
    | none => msRealtime st ai

/-- Demo multi-select subject with two options. -/
def msDemoSubject : Subject :=
  { description := "q", id := 2, options := [⟨"x", 1⟩, ⟨"y", 2⟩] }

/-- Fresh resolver state over `msDemoSubject`. -/
def msDemo0 : MSState := { subject := msDemoSubject }

/-- Counterexample for C7 as stated: with the AI returning index 0 on
every call, calls 2 and 3 — successive, with no `addAnswerFilter` between
them — both return the identical sorted set {1, 2}: the toggled
perturbation is not re-checked against the tried-history. -/
theorem multiSelect_repeat_counterexample :
    (msGetAnswer (msGetAnswer (msGetAnswer msDemo0
        (Except.ok [0])).2 (Except.ok [0])).2 (Except.ok [0])).1 =
        (msGetAnswer (msGetAnswer msDemo0 (Except.ok [0])).2
          (Except.ok [0])).1 ∧
      (msGetAnswer (msGetAnswer msDemo0 (Except.ok [0])).2
          (Except.ok [0])).1 = [1, 2] := by
  constructor
  · rfl
  · rfl

/-- Claim C7 as amended: when the realtime inference result's normalized
key is not yet in the tried-history, `getAnswer` returns it unperturbed
and it is indeed not a repeat; when the key was already tried, the
resolver returns the last-option toggle perturbation — which is NOT
re-checked against the tried-history, so it can repeat an earlier return
(see the counterexample). -/
theorem multiSelect_no_repeat_only_unperturbed (st : MSState)
    (ai : Except Unit (List Int))
    (hpass : st.pass = false) (hpre : st.prefetched = none) :
    (st.tried.contains (msNormalize (msCandidate st.subject.options ai)) = false →
      (msGetAnswer st ai).1 = msCandidate st.subject.options ai ∧
        st.tried.contains (msNormalize (msGetAnswer st ai).1) = false) ∧
    (st.tried.contains (msNormalize (msCandidate st.subject.options ai)) = true →
      (msGetAnswer st ai).1 =
        msPerturb st.subject.options (msCandidate st.subject.options ai)) := by
  obtain ⟨subj, pass, solved, tried, pre⟩ := st
  simp only at hpass hpre
  subst hpass
  subst hpre
  constructor
  · intro hnot
    have hnot' : msNormalize (msCandidate subj.options ai) ∉ tried := by
      simpa using hnot
    constructor
    · simp [msGetAnswer, msRealtime, hnot']
    · simp [msGetAnswer, msRealtime, hnot']
  · intro hyes
    have hyes' : msNormalize (msCandidate subj.options ai) ∈ tried := by
      simpa using hyes
    simp [msGetAnswer, msRealtime, hyes']

/-- Witness for C7 (amended): on the two-option demo subject, a fresh
resolver returns the AI's set {1}; a resolver that already tried {1}
returns the perturbed set {1, 2}. -/
theorem multiSelect_behaviour_witness :
    (msGetAnswer msDemo0 (Except.ok [0])).1 = [1] ∧
      (msGetAnswer { msDemo0 with tried := [[1]] } (Except.ok [0])).1 = [1, 2] := by
  have h1 := (multiSelect_no_repeat_only_unperturbed msDemo0
    (Except.ok [0]) rfl rfl).1 (by decide)
  have h2 := (multiSelect_no_repeat_only_unperturbed
    { msDemo0 with tried := [[1]] } (Except.ok [0]) rfl rfl).2 (by decide)
  exact ⟨h1.1.trans (by decide), h2.trans (by decide)⟩

/- == Free-text resolvers (FillInBlank.ts / ShortAnswer.ts getAnswerText) === -/

/-- `raw.replace(/\s+/g, ' ')`: collapse every maximal whitespace run to a
single space (`prevWs` tracks whether the previous code point was part of
a run already replaced). -/
def collapseWsAux (prevWs : Bool) : List Nat → List Nat
  | [] => []
  | c :: rest =>
    if isWsCode c then
      if prevWs then collapseWsAux true rest
      else 32 :: collapseWsAux true rest
    else c :: collapseWsAux false rest

/-- The text normalisation both free-text resolvers apply:
`raw.replace(/\s+/g, ' ').trim()`. -/
def normWs (s : List Nat) : List Nat := jsTrim (collapseWsAux false s)

/-- Code points of a Lean string (used for concrete text witnesses). -/
def strCodes (s : String) : List Nat := s.data.map Char.toNat

/-- The fixed fallback text `'无法获取答案'` shared by FillInBlank.ts line
71 and ShortAnswer.ts line 73 (Matching.ts uses `'无法获取匹配答案'`). -/
def ftPlaceholder : List Nat := strCodes "无法获取答案"

/-- Mutable state of a FillInBlank / ShortAnswer resolver: pass flag,
tried normalized answer texts, cached last successful answer, and the
inherited `_prefetchedResult` slot.  (Cloze and Analysis inherit
FillInBlank's implementation unchanged.) -/
structure FTState where
  subject : Subject
  pass : Bool := false
  triedTexts : List (List Nat) := []
  cached : Option (List Nat) := none
  prefetched : Option BatchResultItem := none
deriving Repr, DecidableEq

/-- The `for (let i = 0; i < 3; i++)` realtime loop of `getAnswerText`
(FillInBlank.ts lines 49-71, identical in ShortAnswer.ts): an AI failure
BREAKS the loop at once; an empty or already-tried normalized text
`continue`s; a fresh text is recorded and returned.  After the loop the
fallback `this.cached ?? '无法获取答案'` is returned.  `i` is the next
call index, `r` the remaining iterations (`r = 3 - i` at entry); the
result carries the returned text, the new state and the number of AI
calls made. -/
def ftLoop (st : FTState) (oracle : Nat → Except Unit (List Nat)) :
    Nat → Nat → Option (List Nat) × FTState × Nat
  | i, 0 => (some (st.cached.getD ftPlaceholder), st, i)
  | i, r + 1 =>
    match oracle i with
    | Except.error _ => (some (st.cached.getD ftPlaceholder), st, i + 1)
    | Except.ok raw =>
      let t := normWs raw
      if t = [] then ftLoop st oracle (i + 1) r
      else if st.triedTexts.contains t then ftLoop st oracle (i + 1) r
      else (some t,
        { st with triedTexts := jsSetAdd st.triedTexts t, cached := some t },
        i + 1)

/-- `getAnswerText` (FillInBlank.ts lines 34-72 / ShortAnswer.ts lines
36-74): pass short-circuit (returns the cached text), prefetched-text
branch (consumed only when a non-empty text is present; used only when
fresh), then the realtime loop with 3 iterations. -/
def ftGetAnswerText (st : FTState) (oracle : Nat → Except Unit (List Nat)) :
    Option (List Nat) × FTState × Nat :=
  if st.pass then (st.cached, st, 0)
  else
    match st.prefetched with
    | some r =>
      match r.text with
      | some txt =>
        if txt ≠ [] then
          let t := normWs txt
          let st1 := { st with prefetched := none }
          if t ≠ [] ∧ st1.triedTexts.contains t = false then
            (some t,
              { st1 with
                  triedTexts := jsSetAdd st1.triedTexts t
                  cached := some t }, 0)
          else ftLoop st1 oracle 0 3
        else ftLoop st oracle 0 3
      | none => ftLoop st oracle 0 3
    | none => ftLoop st oracle 0 3

/-- Demo free-text subject. -/
def ftDemoSubject : Subject := { description := "q", id := 3, options := [] }

/-- Fresh free-text resolver state. -/
def ftDemo0 : FTState := { subject := ftDemoSubject }

/-- Counterexample for C8 as stated: with the first AI call failing and
the next two calls available with a fresh answer "GOOD", `getAnswerText`
does NOT retry — the `catch` breaks the loop after a single call and the
fixed placeholder is returned. -/
theorem freeText_failure_no_retry_counterexample :
    ftGetAnswerText ftDemo0
        (fun i => if i = 0 then Except.error ()
          else Except.ok (strCodes "GOOD")) =
      (some ftPlaceholder, ftDemo0, 1) := by
  rfl

lemma ftLoop_calls_le (st : FTState) (oracle : Nat → Except Unit (List Nat)) :
    ∀ r i, (ftLoop st oracle i r).2.2 ≤ i + r := by
  intro r
  induction r with
  | zero =>
    intro i
    simp [ftLoop]
  | succ r ih =>
    intro i
    cases ho : oracle i with
    | error e =>
      simp only [ftLoop, ho]
      omega
    | ok raw =>
      simp only [ftLoop, ho]
      by_cases h1 : normWs raw = []
      · rw [if_pos h1]
        have := ih (i + 1)
        omega
      · rw [if_neg h1]
        by_cases h2 : st.triedTexts.contains (normWs raw) = true
        · rw [if_pos h2]
          have := ih (i + 1)
          omega
        · rw [if_neg h2]
          show i + 1 ≤ i + (r + 1)
          omega

lemma ftLoop_all_dud (st : FTState) (oracle : Nat → Except Unit (List Nat)) :
    ∀ r i, (∀ j, i ≤ j → j < i + r → ∃ t, oracle j = Except.ok t ∧
        (normWs t = [] ∨ st.triedTexts.contains (normWs t) = true)) →
      ftLoop st oracle i r = (some (st.cached.getD ftPlaceholder), st, i + r) := by
  intro r
  induction r with
  | zero =>
    intro i _
    simp [ftLoop]
  | succ r ih =>
    intro i h
    obtain ⟨t, hok, hdud⟩ := h i (by omega) (by omega)
    rw [ftLoop, hok]
    dsimp only
    have step : ftLoop st oracle (i + 1) r =
        (some (st.cached.getD ftPlaceholder), st, i + 1 + r) :=
      ih (i + 1) (fun j hj1 hj2 => h j (by omega) (by omega))
    have he : i + 1 + r = i + (r + 1) := by omega
    rcases hdud with hemp | htried
    · rw [if_pos hemp, step, he]
    · by_cases hemp : normWs t = []
      · rw [if_pos hemp, step, he]
      · rw [if_neg hemp, if_pos htried, step, he]

/-- Claim C8 as amended: the free-text `getAnswerText` realtime loop makes
at most 3 AI calls; an AI FAILURE breaks the loop immediately (no retry on
failure — only empty or duplicate results are retried), after which — as
after 3 duplicate/empty results — the resolver falls back to the cached
last successful answer if any, else the fixed placeholder '无法获取答案';
a fresh non-empty first result is recorded in the tried-set and returned. -/
theorem freeText_retry_behaviour (st : FTState)
    (oracle : Nat → Except Unit (List Nat))
    (hpass : st.pass = false) (hpre : st.prefetched = none) :
    (ftGetAnswerText st oracle).2.2 ≤ 3 ∧
    (oracle 0 = Except.error () →
      ftGetAnswerText st oracle =
        (some (st.cached.getD ftPlaceholder), st, 1)) ∧
    ((∀ j, j < 3 → ∃ t, oracle j = Except.ok t ∧
        (normWs t = [] ∨ st.triedTexts.contains (normWs t) = true)) →
      ftGetAnswerText st oracle =
        (some (st.cached.getD ftPlaceholder), st, 3)) ∧
    (∀ t, oracle 0 = Except.ok t → normWs t ≠ [] →
      st.triedTexts.contains (normWs t) = false →
      ftGetAnswerText st oracle =
        (some (normWs t),
          { st with
              triedTexts := jsSetAdd st.triedTexts (normWs t)
              cached := some (normWs t) }, 1)) := by
  have hentry : ftGetAnswerText st oracle = ftLoop st oracle 0 3 := by
    rw [ftGetAnswerText, if_neg (by rw [hpass]; exact Bool.false_ne_true), hpre]
  refine ⟨?_, ?_, ?_, ?_⟩
  · rw [hentry]
    have := ftLoop_calls_le st oracle 3 0
    omega
  · intro h0
    rw [hentry, ftLoop, h0]
  · intro hdud
    rw [hentry, ftLoop_all_dud st oracle 3 0
      (fun j hj1 hj2 => hdud j (by omega))]
  · intro t hok hne htried
    rw [hentry, ftLoop, hok]
    dsimp only
    rw [if_neg hne, if_neg (by rw [htried]; exact Bool.false_ne_true)]

/-- Witness for C8 (amended): a failing first call returns the
placeholder after exactly 1 call; a fresh "GOOD" first answer is returned
after 1 call; the call bound holds. -/
theorem freeText_retry_witness :
    (ftGetAnswerText ftDemo0 (fun _ => Except.error ())).2.2 ≤ 3 ∧
      ftGetAnswerText ftDemo0 (fun _ => Except.error ()) =
        (some ftPlaceholder, ftDemo0, 1) ∧
      ftGetAnswerText ftDemo0 (fun _ => Except.ok (strCodes "GOOD")) =
        (some (normWs (strCodes "GOOD")),
          { ftDemo0 with
              triedTexts := jsSetAdd [] (normWs (strCodes "GOOD"))
              cached := some (normWs (strCodes "GOOD")) }, 1) := by
  refine ⟨(freeText_retry_behaviour ftDemo0 _ rfl rfl).1, ?_, ?_⟩
  · exact (freeText_retry_behaviour ftDemo0 _ rfl rfl).2.1 rfl
  · exact (freeText_retry_behaviour ftDemo0 _ rfl rfl).2.2.2
      (strCodes "GOOD") rfl (by decide) (by decide)

/- ======= AI Batch Dispatcher (src/core/src/ai/AIModel.ts batchRequest) ===== -/

/-- The batching loop `for (let i = 0; i < requests.length; i += qps)
batches.push(requests.slice(i, i + qps))` (AIModel.ts lines 455-458),
written with `q = qps - 1` and a fuel argument bounded by the list length
(each batch consumes at least one element). -/
def jsBatchesFuel {α : Type} (q : Nat) : Nat → List α → List (List α)
  | _, [] => []
  | 0, _ :: _ => []
  | fuel + 1, x :: xs => (x :: xs).take (q + 1) :: jsBatchesFuel q fuel (xs.drop q)

/-- Partition of the request list into batches of size `qps` (the last one
possibly smaller).  For `qps = 0` the source loop never advances and
diverges; that case is excluded by the `0 < qps` hypothesis of the
theorems. -/
def jsBatches {α : Type} (l : List α) (qps : Nat) : List (List α) :=
  match qps with
  | 0 => []
  | q + 1 => jsBatchesFuel q l.length l

/-- Observable events of the batch loop (AIModel.ts lines 466-557): run a
batch (all its requests issued together via `Promise.all`), or sleep the
fixed inter-batch delay `await sleep(1000)`. -/
inductive BatchEvent (α : Type) where
  | run (batch : List α)
  | delay (ms : Nat)
deriving Repr, DecidableEq

/-- Event trace of the batch loop: each batch is run, and the 1000 ms
delay is slept after every batch except the last
(`if (batchIdx < batches.length - 1) await sleep(1000)`). -/
def batchLoopTrace {α : Type} : List (List α) → List (BatchEvent α)
  | [] => []
  | [b] => [BatchEvent.run b]
  | b :: b2 :: bs =>
    BatchEvent.run b :: BatchEvent.delay 1000 :: batchLoopTrace (b2 :: bs)

lemma jsBatchesFuel_spec {α : Type} (q : Nat) :
    ∀ fuel (l : List α), l.length ≤ fuel →
      (jsBatchesFuel q fuel l).length = (l.length + q) / (q + 1) ∧
        (jsBatchesFuel q fuel l).flatten = l ∧
        (∀ b ∈ jsBatchesFuel q fuel l, b ≠ []) := by
  intro fuel
  induction fuel with
  | zero =>
    intro l hl
    match l, hl with
    | [], _ =>
      refine ⟨?_, ?_, ?_⟩
      · show 0 = (0 + q) / (q + 1)
        rw [Nat.zero_add, Nat.div_eq_of_lt (by omega)]
      · rfl
      · intro b hb
        simp [jsBatchesFuel] at hb
  | succ fuel ih =>
    intro l hl
    match l with
    | [] =>
      refine ⟨?_, ?_, ?_⟩
      · show 0 = (0 + q) / (q + 1)
        rw [Nat.zero_add, Nat.div_eq_of_lt (by omega)]
      · rfl
      · intro b hb
        simp [jsBatchesFuel] at hb
    | x :: xs =>
      have hlen : (xs.drop q).length ≤ fuel := by
        rw [List.length_drop]
        simp only [List.length_cons] at hl
        omega
      obtain ⟨ihlen, ihflat, ihne⟩ := ih (xs.drop q) hlen
      refine ⟨?_, ?_, ?_⟩
      · show ((x :: xs).take (q + 1) :: _).length = _
        rw [List.length_cons, ihlen, List.length_drop, List.length_cons]
        by_cases hc : xs.length ≤ q
        · have e0 : xs.length - q + q = q := by omega
          rw [e0, Nat.div_eq_of_lt (by omega)]
          have e1 : xs.length + 1 + q = xs.length + (q + 1) := by omega
          rw [e1, Nat.add_div_right _ (Nat.succ_pos q),
            Nat.div_eq_of_lt (by omega)]
        · have e1 : xs.length - q + q = xs.length := by omega
          rw [e1]
          have e2 : xs.length + 1 + q = xs.length + (q + 1) := by omega
          rw [e2, Nat.add_div_right _ (Nat.succ_pos q)]
      · show (x :: xs).take (q + 1) ++ (jsBatchesFuel q fuel (xs.drop q)).flatten
            = x :: xs
        rw [ihflat, List.take_succ_cons, List.cons_append,
          List.take_append_drop]
      · intro b hb
        rcases List.mem_cons.mp hb with hb | hb
        · subst hb
          simp [List.take_succ_cons]
        · exact ihne b hb

lemma batchLoopTrace_eq_intersperse {α : Type} :
    ∀ bs : List (List α),
      batchLoopTrace bs =
        List.intersperse (BatchEvent.delay 1000) (bs.map BatchEvent.run) := by
  intro bs
  match bs with
  | [] => rfl
  | [b] => rfl
  | b :: b2 :: rest =>
    rw [batchLoopTrace, batchLoopTrace_eq_intersperse (b2 :: rest)]
    simp [List.intersperse]

/-- Claim C5 (batch rate limiting): for N requests and rate Q > 0 the
dispatcher forms exactly `ceil(N / Q)` non-empty batches covering the
request list in order, and the loop trace is the batches interspersed
with single fixed 1000 ms delays — a delay between every pair of
consecutive batches and none after the last.  (Concurrency inside one
batch is a `Promise.all`; it is modelled as the batch being issued in one
`run` event.) -/
theorem batch_partition_and_pacing {α : Type} (l : List α) (qps : Nat)
    (hq : 0 < qps) :
    (jsBatches l qps).length = (l.length + (qps - 1)) / qps ∧
      (jsBatches l qps).flatten = l ∧
      (∀ b ∈ jsBatches l qps, b ≠ []) ∧
      batchLoopTrace (jsBatches l qps) =
        List.intersperse (BatchEvent.delay 1000)
          ((jsBatches l qps).map BatchEvent.run) := by
  match qps, hq with
  | q + 1, _ =>
    have h := jsBatchesFuel_spec q l.length l (le_refl _)
    refine ⟨?_, h.2.1, h.2.2, batchLoopTrace_eq_intersperse _⟩
    show (jsBatchesFuel q l.length l).length = (l.length + (q + 1 - 1)) / (q + 1)
    rw [h.1]
    norm_num

/-- Witness for C5: five requests at rate 2 give ceil(5/2) = 3 batches
[[1,2],[3,4],[5]] with exactly the trace run-delay-run-delay-run. -/
theorem batch_partition_witness :
    (jsBatches [1, 2, 3, 4, 5] 2).length = (5 + 1) / 2 ∧
      (jsBatches [1, 2, 3, 4, 5] 2).flatten = [1, 2, 3, 4, 5] ∧
      batchLoopTrace (jsBatches [1, 2, 3, 4, 5] 2) =
        [BatchEvent.run [1, 2], BatchEvent.delay 1000, BatchEvent.run [3, 4],
          BatchEvent.delay 1000, BatchEvent.run [5]] := by
  have h := batch_partition_and_pacing [1, 2, 3, 4, 5] 2 (by omega)
  exact ⟨h.1, h.2.1, by decide⟩

/-- Question types (src/core/src/api/Exam.ts `SubjectType`, as enumerated
by `s2s` in resolver.ts). -/
inductive SubjectType where
  | random
  | text
  | true_or_false
  | single_selection
  | multiple_selection
  | short_answer
  | fill_in_blank
  | cloze
  | matching
  | analysis
deriving Repr, DecidableEq

/-- The global replacement `raw.replace(/答案：|答案:|答案/gi, ' ')` in
`extractLabels` (AIModel.ts line 50): every occurrence of 答案 (code
points 31572, 26696), optionally followed by a fullwidth (65306) or ASCII
(58) colon, becomes one space; the alternation prefers the colon forms. -/
def stripAnswerWord : List Nat → List Nat
  | [] => []
  | 31572 :: 26696 :: 65306 :: r => 32 :: stripAnswerWord r
  | 31572 :: 26696 :: 58 :: r => 32 :: stripAnswerWord r
  | 31572 :: 26696 :: r => 32 :: stripAnswerWord r
  | c :: rest => c :: stripAnswerWord rest

/-- Maximal uppercase-letter runs of a string (`cur` carries the reversed
current run). -/
def upperRunsAux (cur : List Nat) : List Nat → List (List Nat)
  | [] => if cur = [] then [] else [cur.reverse]
  | c :: rest =>
    if isUpperCode c then upperRunsAux (c :: cur) rest
    else if cur = [] then upperRunsAux [] rest
    else cur.reverse :: upperRunsAux [] rest

/-- Greedy chopping of one run into tokens of at most three letters, as
the global regex `/[A-Z]{1,3}/g` matches it. -/
def chunk3 {α : Type} : List α → List (List α)
  | [] => []
  | [a] => [[a]]
  | [a, b] => [[a, b]]
  | a :: b :: c :: rest => [a, b, c] :: chunk3 rest

/-- `extractLabels` (AIModel.ts lines 47-71): replace the 答案 prefixes,
uppercase, then collect the `[A-Z]{1,3}` tokens.  (The for-loop after the
match pushes every token unchanged in both of its branches.) -/
def extractLabels (raw : List Nat) : List (List Nat) :=
  ((upperRunsAux [] ((stripAnswerWord raw).map toUpperCode)).map chunk3).flatten

/-- The anchored replacement
`raw.replace(/^\s*(答案：|答案:|答案)\s*/i, '')` of the short-answer
cleanup: strip leading whitespace plus one 答案(：|:)? occurrence plus the
following whitespace; if the pattern is absent nothing is replaced. -/
def stripAnswerWordAtStart (s : List Nat) : List Nat :=
  match s.dropWhile isWsCode with
  | 31572 :: 26696 :: 65306 :: r => r.dropWhile isWsCode
  | 31572 :: 26696 :: 58 :: r => r.dropWhile isWsCode
  | 31572 :: 26696 :: r => r.dropWhile isWsCode
  | _ => s

/-- The short-answer text cleanup used in the batch path (AIModel.ts
lines 477-478) and in `getTextResponse`: strip the 答案 prefix, trim. -/
def procShortText (rawTrimmed : List Nat) : List Nat :=
  jsTrim (stripAnswerWordAtStart rawTrimmed)

/-- Multi-selection index parsing in the batch path (AIModel.ts lines
487-501): each token is decoded; in-range indices are kept; an
out-of-range token of two or three letters is split into single letters
and their in-range decodings kept; a decode failure is ignored (the inner
try/catch). -/
def msParseIndices (tokens : List (List Nat)) (optLen : Nat) : List Nat :=
  (tokens.map (fun t =>
    match labelToIndex t with
    | some i =>
      if i < optLen then [i]
      else if 2 ≤ t.length ∧ t.length ≤ 3 ∧ t.all isUpperCode then
        (t.map (fun ch =>
          match labelToIndex [ch] with
          | some j => if j < optLen then [j] else []
          | none => [])).flatten
      else []
    | none => [])).flatten

/-- Single-selection / true-false index parsing in the batch path
(AIModel.ts lines 525-535): decode the first token (0 when there is
none), retry its first letter when out of range and the token looks like
a fused multi-letter answer, and clamp out-of-range results to 0. -/
def ssParseIndex (tokens : List (List Nat)) (optLen : Nat) : Nat :=
  match tokens with
  | [] => 0
  | t :: _ =>
    match labelToIndex t with
    | some i =>
      let i2 := if optLen ≤ i ∧ 2 ≤ t.length ∧ t.length ≤ 3 ∧ t.all isUpperCode then
          match t with
          | ch :: _ => (labelToIndex [ch]).getD i
          | [] => i
        else i
      if optLen ≤ i2 then 0 else i2
    | none => 0

/-- One batch request (an element of `AIModel.batchRequest`'s argument):
subject id, question type, rendered description, option contents. -/
structure BatchReq where
  id : Nat
  type : SubjectType
  description : List Nat
  options : List (List Nat)
deriving Repr, DecidableEq

/-- The deterministic fallback of the per-item catch (AIModel.ts lines
537-544): placeholder text for short-answer requests, the first option
(index 0) for everything else. -/
def batchFallback (t : SubjectType) : BatchResultItem :=
  if t = SubjectType.short_answer then { text := some ftPlaceholder }
  else { indices := some [0] }

/-- Processing of one item inside a batch (the `batch.map(async (req) =>
...)` body, AIModel.ts lines 473-545).  `oracle` is the AI call's outcome
for this item: `ok raw` is the returned content (already `.trim()`med via
`?? ''`), `error` any thrown failure — network, timeout, or the
unsupported-type throw, all caught by the per-item catch. -/
def procBatchItem (reqType : SubjectType) (optLen : Nat)
    (oracle : Except Unit (List Nat)) : BatchResultItem :=
  match oracle with
  | Except.error _ => batchFallback reqType
  | Except.ok raw =>
    match reqType with
    | SubjectType.short_answer => { text := some (procShortText (jsTrim raw)) }
    | SubjectType.multiple_selection =>
      let uniq := msNormalize (jsSetDedup
        (msParseIndices (extractLabels (jsTrim raw)) optLen))
      { indices := some ((if uniq ≠ [] then uniq else [0]).map
          (fun n => (n : Int))) }
    | SubjectType.single_selection =>
      { indices := some
          [(ssParseIndex (extractLabels (jsTrim raw)) optLen : Int)] }
    | SubjectType.true_or_false =>
      { indices := some
          [(ssParseIndex (extractLabels (jsTrim raw)) optLen : Int)] }
    | _ => batchFallback reqType

/-- Pointwise update of the results map (`results.set(id, result)`). -/
def mapSet (m : Nat → Option BatchResultItem) (k : Nat)
    (v : BatchResultItem) : Nat → Option BatchResultItem :=
  fun j => if j = k then some v else m j

/-- Processing one request into the accumulated results map. -/
def batchStep (oracle : Nat → Except Unit (List Nat))
    (m : Nat → Option BatchResultItem) (req : BatchReq) :
    Nat → Option BatchResultItem :=
  mapSet m req.id (procBatchItem req.type req.options.length (oracle req.id))

/-- The results map `AIModel.batchRequest` returns: the batches are
processed in order and each item's result is inserted under its id
(the concatenation of the batches is the original request list, see
`batch_partition_and_pacing`). -/
def batchResultsMap (requests : List BatchReq) (qps : Nat)
    (oracle : Nat → Except Unit (List Nat)) : Nat → Option BatchResultItem :=
  ((jsBatches requests qps).flatten).foldl (batchStep oracle) (fun _ => none)

lemma foldl_batchStep_not_mem (oracle : Nat → Except Unit (List Nat)) :
    ∀ (rs : List BatchReq) (m : Nat → Option BatchResultItem) (i : Nat),
      i ∉ rs.map BatchReq.id → rs.foldl (batchStep oracle) m i = m i := by
  intro rs
  induction rs with
  | nil => intro m i _; rfl
  | cons r rest ih =>
    intro m i hi
    rw [List.foldl_cons, ih _ i (fun hmem => hi (by simp [hmem]))]
    have hne : i ≠ r.id := fun he => hi (by simp [he])
    simp [batchStep, mapSet, hne]

lemma foldl_batchStep_mem (oracle : Nat → Except Unit (List Nat)) :
    ∀ (rs : List BatchReq) (m : Nat → Option BatchResultItem)
      (req : BatchReq), req ∈ rs → (rs.map BatchReq.id).Nodup →
      rs.foldl (batchStep oracle) m req.id =
        some (procBatchItem req.type req.options.length (oracle req.id)) := by
  intro rs
  induction rs with
  | nil => intro m req hmem _; exact absurd hmem (List.not_mem_nil req)
  | cons r rest ih =>
    intro m req hmem hnodup
    rw [List.map_cons] at hnodup
    have hpair := List.nodup_cons.mp hnodup
    rcases List.mem_cons.mp hmem with he | hmem2
    · subst he
      rw [List.foldl_cons]
      rw [foldl_batchStep_not_mem oracle rest _ req.id hpair.1]
      simp [batchStep, mapSet]
    · rw [List.foldl_cons]
      exact ih _ req hmem2 hpair.2

/-- Claim C6 (per-item fallback, batch completeness): for distinct
request ids and a positive rate, the returned map has an entry for every
request — one item's failure never fails the batch — and a failed item's
entry is exactly the deterministic fallback: the first option (index 0)
for choice types, the fixed placeholder text for short-answer. -/
theorem batch_item_fallback_and_completeness (requests : List BatchReq)
    (qps : Nat) (oracle : Nat → Except Unit (List Nat)) (hq : 0 < qps)
    (req : BatchReq) (hmem : req ∈ requests)
    (hnodup : (requests.map BatchReq.id).Nodup) :
    batchResultsMap requests qps oracle req.id =
        some (procBatchItem req.type req.options.length (oracle req.id)) ∧
      (∃ r, batchResultsMap requests qps oracle req.id = some r) ∧
      (oracle req.id = Except.error () →
        batchResultsMap requests qps oracle req.id =
          some (batchFallback req.type)) := by
  have hflat : (jsBatches requests qps).flatten = requests :=
    (batch_partition_and_pacing requests qps hq).2.1
  have hmain : batchResultsMap requests qps oracle req.id =
      some (procBatchItem req.type req.options.length (oracle req.id)) := by
    rw [batchResultsMap, hflat]
    exact foldl_batchStep_mem oracle requests _ req hmem hnodup
  refine ⟨hmain, ⟨_, hmain⟩, ?_⟩
  intro herr
  rw [hmain, herr]
  rfl

/-- Concrete request list for the C6 witness: a short-answer item (id 1)
and a two-option single-selection item (id 2). -/
def demoBatchReqs : List BatchReq :=
  [⟨1, SubjectType.short_answer, strCodes "q1", []⟩,
    ⟨2, SubjectType.single_selection, strCodes "q2",
      [strCodes "x", strCodes "y"]⟩]

/-- Concrete oracle for the C6 witness: the AI call for id 1 throws, the
one for id 2 answers "B". -/
def demoBatchOracle : Nat → Except Unit (List Nat) :=
  fun i => if i = 1 then Except.error () else Except.ok (strCodes "B")

/-- Witness for C6: at rate 2 the failed short-answer item (id 1) maps to
the placeholder fallback while the successful single-selection item
(id 2) maps to decoded index 1 — the failure did not fail the batch. -/
theorem batch_item_fallback_witness :
    batchResultsMap demoBatchReqs 2 demoBatchOracle 1 =
        some (batchFallback SubjectType.short_answer) ∧
      batchResultsMap demoBatchReqs 2 demoBatchOracle 2 =
        some { indices := some [1] } := by
  constructor
  · exact (batch_item_fallback_and_completeness demoBatchReqs 2
      demoBatchOracle (by omega)
      ⟨1, SubjectType.short_answer, strCodes "q1", []⟩ (by decide)
      (by decide)).2.2 rfl
  · have h := (batch_item_fallback_and_completeness demoBatchReqs 2
      demoBatchOracle (by omega)
      ⟨2, SubjectType.single_selection, strCodes "q2",
        [strCodes "x", strCodes "y"]⟩ (by decide) (by decide)).1
    rw [h]
    rfl
